import Mathlib

/-!
Shallow embedding of `notebooks/nb_utils.py` (heptrkx-gnn-tracking):
notebook helper functions for loading configuration, selecting a held-out
test subset, running inference, and computing binary-classification metrics.

Configuration mappings are embedded as insertion-ordered association lists
(`List (String × Val)`), matching Python `dict` semantics for the operations
the module uses (`__getitem__`, `pop`).  Numeric scores and metric values
are embedded as `ℚ`.  External library collaborators (`os.path.expandvars`,
`numpy`, `sklearn.metrics`, `torch`) are modelled from the spec where noted.
-/

namespace NbUtils

/-- A YAML-style configuration value: a string leaf or a nested
string-keyed mapping, kept as an insertion-ordered association list the way
a Python `dict` is. -/
inductive Val where
  | str (s : String)
  | dict (entries : List (String × Val))

/-- Python `d[k]` on a dict embedded as an association list: the value of
the first entry whose key is `k`, if any. -/
def lookup : List (String × Val) → String → Option Val
  | [], _ => none
  | (k', v) :: rest, k => if k' = k then some v else lookup rest k

/-- The `\x7b` character opening a `$\x7bname\x7d` reference. -/
def braceOpen : Char := Char.ofNat 123

/-- The `\x7d` character closing a `$\x7bname\x7d` reference. -/
def braceClose : Char := Char.ofNat 125

/-- A character that may appear in an environment-variable name
(ASCII letter, digit or underscore, as in the `\w` class used by
`os.path.expandvars`). -/
def isVarChar (c : Char) : Bool := c.isAlphanum || c = '_'

/-- Modelled from the spec: the scanning core of `os.path.expandvars`
(Python standard library, an external collaborator) — "expand
environment-variable references in the resulting string".  A `$name` or
brace-delimited `$..name..` reference is replaced by the variable's value
when the environment binds it and is left as written otherwise; substituted
values are not rescanned.  The `fuel` argument only bounds recursion depth;
every step consumes at least one character, so fuel equal to the input
length never runs out. -/
def expandvarsAux (env : String → Option String) : ℕ → List Char → List Char
  | 0, cs => cs
  | _, [] => []
  | fuel + 1, c :: rest =>
    if c = '$' then
      if rest.head? = some braceOpen then
        let rest2 := rest.tail
        let name := rest2.takeWhile (fun d => !(d = braceClose))
        let after := rest2.drop name.length
        if after.isEmpty then
          -- no closing brace: the text is kept unchanged
          c :: rest
        else
          match env (String.mk name) with
          | some v => v.data ++ expandvarsAux env fuel after.tail
          | none => c :: braceOpen :: (name ++ braceClose :: expandvarsAux env fuel after.tail)
      else
        let name := rest.takeWhile isVarChar
        if name.isEmpty then c :: expandvarsAux env fuel rest
        else
          match env (String.mk name) with
          | some v => v.data ++ expandvarsAux env fuel (rest.drop name.length)
          | none => c :: (name ++ expandvarsAux env fuel (rest.drop name.length))
    else c :: expandvarsAux env fuel rest

/-- Modelled from the spec: `os.path.expandvars` applied to a whole string. -/
def expandvars (env : String → Option String) (s : String) : String :=
  String.mk (expandvarsAux env s.data.length s.data)

/-- `get_output_dir(config)`: `os.path.expandvars(config['output_dir'])`.
`none` models the Python call raising (missing key, or a non-string value
that `expandvars` cannot process). -/
def get_output_dir (env : String → Option String) (config : List (String × Val)) :
    Option String :=
  match lookup config "output_dir" with
  | some (Val.str s) => some (expandvars env s)
  | _ => none

/-- `get_input_dir(config)`: `os.path.expandvars(config['data']['input_dir'])`.
`none` models the Python call raising along the key path. -/
def get_input_dir (env : String → Option String) (config : List (String × Val)) :
    Option String :=
  match lookup config "data" with
  | some (Val.dict d) =>
    match lookup d "input_dir" with
    | some (Val.str s) => some (expandvars env s)
    | _ => none
  | _ => none

/-- The five training-only keys `load_model` pops from the model sub-config. -/
def trainingKeys : List String :=
  ["optimizer", "learning_rate", "loss_func", "lr_scaling", "lr_warmup_epochs"]

/-- Python `d.pop(k, None)`: remove the entry with key `k` if present,
without error when absent.  Filtering keeps the order of the other entries,
as `dict.pop` does. -/
def popKey (k : String) (d : List (String × Val)) : List (String × Val) :=
  d.filter (fun p => decide (p.1 ≠ k))

/-- The five `model_config.pop(...)` calls of `load_model`, in source order. -/
def popTrainingKeys (m : List (String × Val)) : List (String × Val) :=
  trainingKeys.foldl (fun d k => popKey k d) m

/-- The effect of `load_model(config, reload_epoch)` on the caller's config
mapping: `model_config = config['model']` aliases the shared sub-dict and the
five `pop` calls mutate it in place, so afterwards the caller's config holds
the popped sub-dict under `'model'`.  Returns the config as the caller
observes it after the call; `none` models the Python call raising when
`'model'` is missing or not a mapping. -/
def load_model_config_after (config : List (String × Val)) :
    Option (List (String × Val)) :=
  match lookup config "model" with
  | some (Val.dict m) =>
    some (config.map (fun p =>
      if p.1 = "model" then ("model", Val.dict (popTrainingKeys m)) else p))
  | _ => none

/-- `torch.arange(n)`: the integers `0, …, n-1`. -/
def arange (n : ℕ) : List ℤ := (List.range n).map Int.ofNat

/-- `test_indices = len(full_dataset) - 1 - torch.arange(n_test)`:
the broadcast subtraction applied elementwise, with `L` the dataset length. -/
def test_indices (L n : ℕ) : List ℤ := (arange n).map (fun k => (L : ℤ) - 1 - k)

/-- `DataLoader(Subset(full_dataset, test_indices), batch_size=1, ...)`:
`Subset` lazily records the selected indices (no bounds check, nothing is
fetched at construction time), and with batch size 1 the loader yields one
singleton batch per selected index, in order.  The loader is embedded as its
list of index batches. -/
def get_test_data_loader (L n : ℕ) : List (List ℤ) :=
  (test_indices L n).map (fun i => [i])

/-- `apply_model(model, data_loader)`: iterate the loader, appending
`model(inputs).squeeze(0)` and `target.squeeze(0)` to two accumulator
lists.  Tensors are abstract (`τ`), with `squeeze0` the `.squeeze(0)`
operation. -/
def apply_model {I τ : Type} (model : I → τ) (squeeze0 : τ → τ)
    (loader : List (I × τ)) : List τ × List τ :=
  loader.foldl
    (fun acc b => (acc.1 ++ [squeeze0 (model b.1)], acc.2 ++ [squeeze0 b.2]))
    ([], [])

/-- The `Metrics` namedtuple: ten named fields, created once per
`compute_metrics` call and never mutated. -/
structure Metrics where
  accuracy : ℚ
  precision : ℚ
  «recall» : ℚ
  prc_precision : List ℚ
  prc_recall : List ℚ
  prc_thresh : List ℚ
  roc_fpr : List ℚ
  roc_tpr : List ℚ
  roc_thresh : List ℚ
  roc_auc : ℚ
deriving DecidableEq

/-- `np.concatenate` on a sequence of 1-d arrays. -/
def np_concatenate (xs : List (List ℚ)) : List ℚ := xs.flatten

/-- Modelled from the spec: `sklearn.metrics.accuracy_score` — the fraction
of positions at which the two boolean label sequences agree.  (sklearn
raises on empty input; here the `ℚ` division by zero yields 0, a case no
claim exercises.) -/
def accuracy_score (y_true y_pred : List Bool) : ℚ :=
  (((y_true.zip y_pred).countP (fun p => p.1 == p.2) : ℕ) : ℚ) / ((y_true.length : ℕ) : ℚ)

/-- True positives of a boolean prediction against boolean truth. -/
def truePos (y_true y_pred : List Bool) : ℕ :=
  (y_true.zip y_pred).countP (fun p => p.1 && p.2)

/-- False positives. -/
def falsePos (y_true y_pred : List Bool) : ℕ :=
  (y_true.zip y_pred).countP (fun p => !p.1 && p.2)

/-- False negatives. -/
def falseNeg (y_true y_pred : List Bool) : ℕ :=
  (y_true.zip y_pred).countP (fun p => p.1 && !p.2)

/-- Modelled from the spec: `sklearn.metrics.precision_score` —
`TP / (TP + FP)`, and 0 when no positive is predicted (sklearn's
zero-division default). -/
def precision_score (y_true y_pred : List Bool) : ℚ :=
  ((truePos y_true y_pred : ℕ) : ℚ)
    / (((truePos y_true y_pred : ℕ) : ℚ) + ((falsePos y_true y_pred : ℕ) : ℚ))

/-- Modelled from the spec: `sklearn.metrics.recall_score` —
`TP / (TP + FN)`, and 0 when the truth has no positives. -/
def recall_score (y_true y_pred : List Bool) : ℚ :=
  ((truePos y_true y_pred : ℕ) : ℚ)
    / (((truePos y_true y_pred : ℕ) : ℚ) + ((falseNeg y_true y_pred : ℕ) : ℚ))

/-- Number of true positives when every score at least `v` is predicted
positive, over a paired (score, truth) sequence. -/
def tpsAt (pairs : List (ℚ × Bool)) (v : ℚ) : ℕ :=
  pairs.countP (fun p => decide (v ≤ p.1) && p.2)

/-- Number of false positives when every score at least `v` is predicted
positive. -/
def fpsAt (pairs : List (ℚ × Bool)) (v : ℚ) : ℕ :=
  pairs.countP (fun p => decide (v ≤ p.1) && !p.2)

/-- The distinct score values in decreasing order: the threshold grid of a
ROC curve. -/
def threshDesc (scores : List ℚ) : List ℚ :=
  List.insertionSort (fun a b => a ≥ b) scores.dedup

/-- The distinct score values in increasing order: the threshold grid of a
precision-recall curve. -/
def threshAsc (scores : List ℚ) : List ℚ :=
  List.insertionSort (fun a b => a ≤ b) scores.dedup

/-- Modelled from the spec: `sklearn.metrics.roc_curve` — thresholds are the
distinct score values in decreasing order; at threshold `v` every score at
least `v` is predicted positive; the false/true positive rates get the
conventional `(0, 0)` starting point prepended (sklearn's extra threshold
above every score).  sklearn's optional dropping of collinear interior
points is omitted.  Returns `(fpr, tpr, thresholds)`. -/
def roc_curve (y_true : List Bool) (scores : List ℚ) :
    List ℚ × List ℚ × List ℚ :=
  let pairs := scores.zip y_true
  let pos : ℕ := pairs.countP (fun p => p.2)
  let neg : ℕ := pairs.countP (fun p => !p.2)
  let ths := threshDesc scores
  (0 :: ths.map (fun v => ((fpsAt pairs v : ℕ) : ℚ) / ((neg : ℕ) : ℚ)),
   0 :: ths.map (fun v => ((tpsAt pairs v : ℕ) : ℚ) / ((pos : ℕ) : ℚ)),
   ths)

/-- Modelled from the spec: `sklearn.metrics.precision_recall_curve` —
thresholds are the distinct score values in increasing order; at threshold
`v` every score at least `v` is predicted positive; the final
`(precision, recall) = (1, 0)` point is appended as sklearn does.
Returns `(precision, recall, thresholds)`. -/
def precision_recall_curve (y_true : List Bool) (scores : List ℚ) :
    List ℚ × List ℚ × List ℚ :=
  let pairs := scores.zip y_true
  let pos : ℕ := pairs.countP (fun p => p.2)
  let ths := threshAsc scores
  (ths.map (fun v =>
      ((tpsAt pairs v : ℕ) : ℚ)
        / (((tpsAt pairs v : ℕ) : ℚ) + ((fpsAt pairs v : ℕ) : ℚ))) ++ [1],
   ths.map (fun v => ((tpsAt pairs v : ℕ) : ℚ) / ((pos : ℕ) : ℚ)) ++ [0],
   ths)

/-- Trapezoidal area under a polyline given as a list of points. -/
def trapezoid : List (ℚ × ℚ) → ℚ
  | p :: q :: rest => (q.1 - p.1) * (p.2 + q.2) / 2 + trapezoid (q :: rest)
  | _ => 0

/-- Modelled from the spec: `sklearn.metrics.auc` — trapezoidal area under
the curve `y` against `x` (here always used with nondecreasing `x`). -/
def auc (x y : List ℚ) : ℚ := trapezoid (x.zip y)

/-- `compute_metrics(preds, targets, threshold)`: concatenate the batches,
binarize both with the strict comparison `> threshold`, and bundle the
decision-boundary metrics, both curves and the ROC AUC into a `Metrics`
record. -/
def compute_metrics (preds targets : List (List ℚ)) (threshold : ℚ) : Metrics :=
  let predsF := np_concatenate preds
  let targetsF := np_concatenate targets
  let y_pred := predsF.map (fun x => decide (x > threshold))
  let y_true := targetsF.map (fun x => decide (x > threshold))
  let prc := precision_recall_curve y_true predsF
  let roc := roc_curve y_true predsF
  { accuracy := accuracy_score y_true y_pred
    precision := precision_score y_true y_pred
    «recall» := recall_score y_true y_pred
    prc_precision := prc.1
    prc_recall := prc.2.1
    prc_thresh := prc.2.2
    roc_fpr := roc.1
    roc_tpr := roc.2.1
    roc_thresh := roc.2.2
    roc_auc := auc roc.1 roc.2.1 }

/-! ## Helper lemmas -/

lemma apply_model_foldl {I τ : Type} (model : I → τ) (squeeze0 : τ → τ)
    (loader : List (I × τ)) (xs ys : List τ) :
    loader.foldl
        (fun acc b => (acc.1 ++ [squeeze0 (model b.1)], acc.2 ++ [squeeze0 b.2]))
        (xs, ys)
      = (xs ++ loader.map (fun b => squeeze0 (model b.1)),
         ys ++ loader.map (fun b => squeeze0 b.2)) := by
  induction loader generalizing xs ys with
  | nil => simp
  | cons b rest ih => simp [ih]

lemma flatten_map_singleton (l : List ℤ) : (l.map (fun i => [i])).flatten = l := by
  induction l with
  | nil => rfl
  | cons x rest ih => simp [ih]

lemma test_indices_eq (L n : ℕ) :
    test_indices L n = (List.range n).map (fun k => (L : ℤ) - 1 - (k : ℕ)) := by
  rw [test_indices, arange, List.map_map]
  rfl

lemma popTrainingKeys_eq (m : List (String × Val)) :
    popTrainingKeys m
      = popKey "lr_warmup_epochs" (popKey "lr_scaling" (popKey "loss_func"
          (popKey "learning_rate" (popKey "optimizer" m)))) := rfl

lemma lookup_popKey_self (k : String) (d : List (String × Val)) :
    lookup (popKey k d) k = none := by
  induction d with
  | nil => rfl
  | cons p rest ih =>
    by_cases h : p.1 = k
    · simpa [popKey, List.filter_cons, h] using ih
    · simpa [popKey, List.filter_cons, h, lookup] using ih

lemma lookup_popKey_other {k k' : String} (h : k ≠ k') (d : List (String × Val)) :
    lookup (popKey k' d) k = lookup d k := by
  have hks : k' ≠ k := h.symm
  induction d with
  | nil => rfl
  | cons p rest ih =>
    simp only [popKey, List.filter_cons] at ih ⊢
    by_cases hp : p.1 = k'
    · rw [if_neg (by simp [hp])]
      show lookup (List.filter _ rest) k = if p.1 = k then some p.2 else lookup rest k
      rw [if_neg (by rw [hp]; exact hks)]
      exact ih
    · rw [if_pos (by simp [hp])]
      show (if p.1 = k then some p.2 else lookup (List.filter _ rest) k)
        = if p.1 = k then some p.2 else lookup rest k
      by_cases hk2 : p.1 = k
      · simp [hk2]
      · simp only [decide_not] at ih
        simp [hk2, ih]

lemma popKey_eq_self {k : String} {d : List (String × Val)} :
    popKey k d = d ↔ ∀ p ∈ d, p.1 ≠ k := by
  simp [popKey, List.filter_eq_self]

lemma not_mem_trainingKeys_of_mem_pop {p : String × Val} {m : List (String × Val)}
    (hp : p ∈ popTrainingKeys m) : p.1 ∉ trainingKeys := by
  rw [popTrainingKeys_eq] at hp
  simp only [popKey, List.mem_filter, decide_eq_true_eq] at hp
  simp only [trainingKeys, List.mem_cons, List.not_mem_nil, or_false, not_or]
  tauto

lemma popTrainingKeys_eq_self {m : List (String × Val)} :
    popTrainingKeys m = m ↔ ∀ p ∈ m, p.1 ∉ trainingKeys := by
  constructor
  · intro h p hp
    exact not_mem_trainingKeys_of_mem_pop (show p ∈ popTrainingKeys m from h.symm ▸ hp)
  · intro h
    have h1 : popKey "optimizer" m = m :=
      popKey_eq_self.mpr (fun p hp e => h p hp (by rw [e]; simp [trainingKeys]))
    have h2 : popKey "learning_rate" m = m :=
      popKey_eq_self.mpr (fun p hp e => h p hp (by rw [e]; simp [trainingKeys]))
    have h3 : popKey "loss_func" m = m :=
      popKey_eq_self.mpr (fun p hp e => h p hp (by rw [e]; simp [trainingKeys]))
    have h4 : popKey "lr_scaling" m = m :=
      popKey_eq_self.mpr (fun p hp e => h p hp (by rw [e]; simp [trainingKeys]))
    have h5 : popKey "lr_warmup_epochs" m = m :=
      popKey_eq_self.mpr (fun p hp e => h p hp (by rw [e]; simp [trainingKeys]))
    rw [popTrainingKeys_eq, h1, h2, h3, h4, h5]

lemma lookup_eq_of_mem_nodup {config : List (String × Val)} {p : String × Val}
    (hnd : (config.map Prod.fst).Nodup) (hp : p ∈ config) :
    lookup config p.1 = some p.2 := by
  induction config with
  | nil => cases hp
  | cons q rest ih =>
    rw [List.map_cons, List.nodup_cons] at hnd
    rcases List.mem_cons.mp hp with rfl | hp
    · rw [lookup, if_pos rfl]
    · have hq : q.1 ≠ p.1 := fun e => hnd.1 (e ▸ List.mem_map_of_mem Prod.fst hp)
      rw [lookup, if_neg hq]
      exact ih hnd.2 hp

lemma map_update_model_eq_self {config m w : List (String × Val)}
    (hm : lookup config "model" = some (Val.dict m))
    (h : config.map (fun p =>
        if p.1 = "model" then ("model", Val.dict w) else p) = config) :
    w = m := by
  induction config with
  | nil => cases hm
  | cons p rest ih =>
    by_cases hp : p.1 = "model"
    · rw [lookup, if_pos hp] at hm
      rw [List.map_cons, if_pos hp] at h
      have h1 := (List.cons.injEq _ _ _ _).mp h
      have hv : Val.dict w = p.2 := congrArg Prod.snd h1.1
      rw [Option.some_inj.mp hm] at hv
      exact Val.dict.inj hv
    · rw [lookup, if_neg hp] at hm
      rw [List.map_cons, if_neg hp] at h
      exact ih hm ((List.cons.injEq _ _ _ _).mp h).2

/-! ## Claim theorems -/

/-- C4: for every model and data loader, the two sequences returned by
`apply_model` are the per-batch squeezed predictions and targets, in the
loader's iteration order; in particular they have equal length, one entry
per batch. -/
theorem apply_model_parallel_sequences {I τ : Type} (model : I → τ)
    (squeeze0 : τ → τ) (loader : List (I × τ)) :
    apply_model model squeeze0 loader
      = (loader.map (fun b => squeeze0 (model b.1)),
         loader.map (fun b => squeeze0 b.2))
    ∧ (apply_model model squeeze0 loader).1.length
        = (apply_model model squeeze0 loader).2.length
    ∧ (apply_model model squeeze0 loader).1.length = loader.length := by
  have h := apply_model_foldl model squeeze0 loader [] []
  simp only [List.nil_append] at h
  refine ⟨h, ?_, ?_⟩ <;> rw [apply_model, h] <;> simp

/-- C2: `get_test_data_loader` with `n_test = 16` selects exactly the index
set `[L-16, L-1]` (as integers), enumerated by descending index from the
end, and wraps each selected index as its own singleton batch. -/
theorem get_test_data_loader_last16 (L : ℕ) :
    (∀ i : ℤ, i ∈ test_indices L 16 ↔ (L : ℤ) - 16 ≤ i ∧ i ≤ (L : ℤ) - 1)
    ∧ (test_indices L 16).Pairwise (fun a b => a > b)
    ∧ (get_test_data_loader L 16).flatten = test_indices L 16
    ∧ ∀ b ∈ get_test_data_loader L 16, b.length = 1 := by
  refine ⟨?_, ?_, ?_, ?_⟩
  · intro i
    rw [test_indices_eq]
    simp only [List.mem_map, List.mem_range]
    constructor
    · rintro ⟨k, hk, rfl⟩; omega
    · rintro ⟨h1, h2⟩
      refine ⟨((L : ℤ) - 1 - i).toNat, by omega, by omega⟩
  · rw [test_indices_eq, List.pairwise_map]
    exact (List.pairwise_lt_range 16).imp (fun h => by omega)
  · exact flatten_map_singleton _
  · intro b hb
    simp only [get_test_data_loader, List.mem_map] at hb
    obtain ⟨i, _, rfl⟩ := hb
    rfl

/-- C10: `get_test_data_loader` performs no validation of `n_test` against
the dataset length: every index `L - 1 - k` for `k < n_test` is selected
unconditionally, so when `n_test` exceeds `L` the selection contains a
negative index (construction itself is total, nothing is raised). -/
theorem get_test_data_loader_no_validation (L n : ℕ) (h1 : 1 ≤ n) (h2 : L < n) :
    (∀ k : ℕ, k < n → ((L : ℤ) - 1 - (k : ℤ)) ∈ test_indices L n)
    ∧ ∃ i ∈ test_indices L n, i < 0 := by
  have hmem : ∀ k : ℕ, k < n → ((L : ℤ) - 1 - (k : ℤ)) ∈ test_indices L n := by
    intro k hk
    rw [test_indices_eq]
    simp only [List.mem_map, List.mem_range]
    exact ⟨k, hk, rfl⟩
  refine ⟨hmem, ⟨(L : ℤ) - 1 - ((n - 1 : ℕ) : ℤ), hmem (n - 1) (by omega), by omega⟩⟩

/-- Witness for C10 at `L = 2`, `n_test = 3`: the selection contains a
negative index. -/
theorem get_test_data_loader_no_validation_witness :
    ((2 : ℤ) - 1 - ((0 : ℕ) : ℤ)) ∈ test_indices 2 3
    ∧ ∃ i ∈ test_indices 2 3, i < 0 :=
  ⟨(get_test_data_loader_no_validation 2 3 (by norm_num) (by norm_num)).1 0
      (by norm_num),
   (get_test_data_loader_no_validation 2 3 (by norm_num) (by norm_num)).2⟩

/-- C5: the pop phase of `load_model` removes exactly the five training-only
keys from the model sub-config — each of the five is absent afterwards, every
other key keeps its value, and popping an absent key is a no-op (the
operation is total, no error). -/
theorem load_model_pops_exactly_training_keys (m : List (String × Val)) :
    (∀ k ∈ trainingKeys, lookup (popTrainingKeys m) k = none)
    ∧ ∀ k, k ∉ trainingKeys → lookup (popTrainingKeys m) k = lookup m k := by
  constructor
  · intro k hk
    rw [popTrainingKeys_eq]
    simp only [trainingKeys, List.mem_cons, List.not_mem_nil, or_false] at hk
    rcases hk with rfl | rfl | rfl | rfl | rfl
    · rw [lookup_popKey_other (by decide), lookup_popKey_other (by decide),
        lookup_popKey_other (by decide), lookup_popKey_other (by decide),
        lookup_popKey_self]
    · rw [lookup_popKey_other (by decide), lookup_popKey_other (by decide),
        lookup_popKey_other (by decide), lookup_popKey_self]
    · rw [lookup_popKey_other (by decide), lookup_popKey_other (by decide),
        lookup_popKey_self]
    · rw [lookup_popKey_other (by decide), lookup_popKey_self]
    · rw [lookup_popKey_self]
  · intro k hk
    simp only [trainingKeys, List.mem_cons, List.not_mem_nil, or_false, not_or] at hk
    obtain ⟨h1, h2, h3, h4, h5⟩ := hk
    rw [popTrainingKeys_eq, lookup_popKey_other h5, lookup_popKey_other h4,
      lookup_popKey_other h3, lookup_popKey_other h2, lookup_popKey_other h1]

/-- A concrete model sub-config: one training-only key present, the other
four absent, plus an architecture key. -/
def mEx : List (String × Val) :=
  [("name", Val.str "gnn_segment_classifier"), ("optimizer", Val.str "Adam")]

/-- Witness for C5 at a concrete model sub-config: the present training key
`'optimizer'` is removed, the absent ones are no-ops, and `'name'` keeps its
value. -/
theorem load_model_pops_exactly_training_keys_witness :
    lookup (popTrainingKeys mEx) "optimizer" = none
    ∧ lookup (popTrainingKeys mEx) "lr_scaling" = none
    ∧ lookup (popTrainingKeys mEx) "name" = lookup mEx "name" :=
  ⟨(load_model_pops_exactly_training_keys mEx).1 "optimizer" (by simp [trainingKeys]),
   (load_model_pops_exactly_training_keys mEx).1 "lr_scaling" (by simp [trainingKeys]),
   (load_model_pops_exactly_training_keys mEx).2 "name" (by simp [trainingKeys])⟩

/-- A concrete config whose model sub-config holds a training-only key. -/
def cfgMut : List (String × Val) :=
  [("output_dir", Val.str "results"),
   ("model", Val.dict [("name", Val.str "gnn_segment_classifier"),
                       ("optimizer", Val.str "Adam")])]

/-- C1 counterexample: `load_model` is not pure in its config argument — on a
config whose model sub-mapping holds `'optimizer'`, the caller's mapping
after the call differs from the one passed in (the shared `'model'` sub-dict
was mutated by `pop`). -/
theorem load_model_mutates_config : load_model_config_after cfgMut ≠ some cfgMut := by
  have heval : load_model_config_after cfgMut
      = some [("output_dir", Val.str "results"),
              ("model", Val.dict [("name", Val.str "gnn_segment_classifier")])] := rfl
  rw [heval]
  intro h
  have h2 := Option.some_inj.mp h
  have h3 := congrArg (fun l => lookup l "model") h2
  simp only [cfgMut, lookup] at h3
  have h4 := Val.dict.inj (Option.some_inj.mp h3)
  exact absurd (congrArg List.length h4) (by simp)

/-- C1 (amended): `load_model` mutates the caller's `'model'` sub-mapping in
place by popping the five training-only keys; the caller's config mapping is
left unchanged precisely when the model sub-mapping contains none of the
five keys (for a config with no duplicate keys, as Python dicts cannot
have). -/
theorem load_model_changes_only_training_keys (config m : List (String × Val))
    (hm : lookup config "model" = some (Val.dict m))
    (hnd : (config.map Prod.fst).Nodup) :
    load_model_config_after config = some config ↔ ∀ p ∈ m, p.1 ∉ trainingKeys := by
  rw [load_model_config_after, hm, Option.some_inj]
  constructor
  · intro h
    exact popTrainingKeys_eq_self.mp (map_update_model_eq_self hm h)
  · intro h
    have hpop : popTrainingKeys m = m := popTrainingKeys_eq_self.mpr h
    have hfix : ∀ p ∈ config,
        (if p.1 = "model" then ("model", Val.dict (popTrainingKeys m)) else p) = p := by
      intro p hp
      by_cases hk : p.1 = "model"
      · have hl := lookup_eq_of_mem_nodup hnd hp
        rw [hk] at hl
        rw [hl] at hm
        rw [if_pos hk, hpop, ← hk, ← Option.some_inj.mp hm]
      · rw [if_neg hk]
    rw [List.map_congr_left hfix]
    simp

/-- A concrete config whose model sub-config holds no training-only key. -/
def cfgPure : List (String × Val) :=
  [("output_dir", Val.str "results"),
   ("model", Val.dict [("name", Val.str "gnn_segment_classifier")])]

/-- Witness for the amended C1: a config whose model sub-mapping holds none
of the five keys is left unchanged by `load_model`. -/
theorem load_model_changes_only_training_keys_witness :
    load_model_config_after cfgPure = some cfgPure :=
  (load_model_changes_only_training_keys cfgPure
      [("name", Val.str "gnn_segment_classifier")] rfl
      (by simp [cfgPure])).mpr
    (by intro p hp; simp only [List.mem_cons, List.not_mem_nil, or_false] at hp;
        rw [hp]; simp [trainingKeys])

/-- An environment binding only `HOME`, to `/root`. -/
def envHome : String → Option String :=
  fun n => if n = "HOME" then some "/root" else none

/-- C6: `get_output_dir` and `get_input_dir` expand environment-variable
references in the configured path string: with `HOME` bound to `/root`, the
configured value `$HOME/x` resolves to `/root/x` for the top-level
`output_dir` key and for the nested `data.input_dir` key path. -/
theorem get_dirs_expand_env_vars :
    get_output_dir envHome [("output_dir", Val.str "$HOME/x")] = some "/root/x"
    ∧ get_input_dir envHome [("data", Val.dict [("input_dir", Val.str "$HOME/x")])]
        = some "/root/x" := by
  exact ⟨rfl, rfl⟩

/-- C7: `get_output_dir` fails exactly when `'output_dir'` is absent from the
config mapping, and `get_input_dir` fails exactly when the key path
`data.input_dir` is absent, provided the configured values are of the types
the config schema prescribes (string leaves, `data` a mapping); when the key
path is present each returns normally. -/
theorem get_dirs_fail_iff_key_absent (env : String → Option String)
    (config : List (String × Val))
    (h1 : ∀ v, lookup config "output_dir" = some v → ∃ s, v = Val.str s)
    (h2 : ∀ v, lookup config "data" = some v → ∃ d, v = Val.dict d)
    (h3 : ∀ d v, lookup config "data" = some (Val.dict d) →
        lookup d "input_dir" = some v → ∃ s, v = Val.str s) :
    (get_output_dir env config = none ↔ lookup config "output_dir" = none)
    ∧ (get_input_dir env config = none
        ↔ ¬ ∃ d v, lookup config "data" = some (Val.dict d)
            ∧ lookup d "input_dir" = some v) := by
  constructor
  · cases hv : lookup config "output_dir" with
    | none => simp [get_output_dir, hv]
    | some v =>
      obtain ⟨s, rfl⟩ := h1 v hv
      simp [get_output_dir, hv]
  · cases hv : lookup config "data" with
    | none => simp [get_input_dir, hv]
    | some v =>
      obtain ⟨d, rfl⟩ := h2 v hv
      cases hw : lookup d "input_dir" with
      | none => simp [get_input_dir, hv, hw]
      | some w =>
        obtain ⟨s, rfl⟩ := h3 d w hv hw
        simp [get_input_dir, hv, hw]

/-- A concrete config with the `data.input_dir` key path but no
`output_dir` key. -/
def cfgNoOut : List (String × Val) :=
  [("data", Val.dict [("input_dir", Val.str "in")])]

/-- Witness for C7 at a concrete config lacking `output_dir` but holding
`data.input_dir`. -/
theorem get_dirs_fail_iff_key_absent_witness :
    (get_output_dir envHome cfgNoOut = none ↔ lookup cfgNoOut "output_dir" = none)
    ∧ (get_input_dir envHome cfgNoOut = none
        ↔ ¬ ∃ d v, lookup cfgNoOut "data" = some (Val.dict d)
            ∧ lookup d "input_dir" = some v) :=
  get_dirs_fail_iff_key_absent envHome cfgNoOut
    (fun _ h => Option.noConfusion h)
    (fun v h => ⟨[("input_dir", Val.str "in")], (Option.some_inj.mp h).symm⟩)
    (by
      intro d v hd hv
      have he : Val.dict [("input_dir", Val.str "in")] = Val.dict d :=
        Option.some_inj.mp hd
      cases Val.dict.inj he
      exact ⟨"in", (Option.some_inj.mp hv).symm⟩)

/-- C9: binarization in `compute_metrics` is strict on both inputs: a value
exactly equal to the threshold counts as the negative class.  With
`preds = [t]` and `targets = [t]` both are classified negative, so accuracy
is 1; with `preds = [t]` and `targets = [t + 1]` the target is positive, the
prediction at exactly `t` stays negative, and accuracy is 0. -/
theorem compute_metrics_strict_binarization (t : ℚ) :
    (compute_metrics [[t]] [[t]] t).accuracy = 1
    ∧ (compute_metrics [[t]] [[t + 1]] t).accuracy = 0 := by
  have h1 : ¬ (t > t) := lt_irrefl t
  have h2 : t + 1 > t := lt_add_one t
  constructor
  · simp [compute_metrics, np_concatenate, accuracy_score, h1]
  · simp [compute_metrics, np_concatenate, accuracy_score, h1, h2]

/-- C8: `compute_metrics` on `preds = [0.9, 0.1]`, `targets = [1, 0]` with
threshold `0.5` yields accuracy, precision, recall and ROC AUC all `1`. -/
theorem compute_metrics_example :
    (compute_metrics [[0.9], [0.1]] [[1], [0]] 0.5).accuracy = 1
    ∧ (compute_metrics [[0.9], [0.1]] [[1], [0]] 0.5).precision = 1
    ∧ (compute_metrics [[0.9], [0.1]] [[1], [0]] 0.5).«recall» = 1
    ∧ (compute_metrics [[0.9], [0.1]] [[1], [0]] 0.5).roc_auc = 1 := by
  have hb1 : ((0.9 : ℚ) > 0.5) := by norm_num
  have hb2 : ¬ ((0.1 : ℚ) > 0.5) := by norm_num
  have hb3 : ((1 : ℚ) > 0.5) := by norm_num
  have hb4 : ¬ ((0 : ℚ) > 0.5) := by norm_num
  refine ⟨?_, ?_, ?_, ?_⟩
  · simp [compute_metrics, np_concatenate, accuracy_score, hb1, hb2, hb3, hb4]
  · simp [compute_metrics, np_concatenate, precision_score, truePos, falsePos,
      hb1, hb2, hb3, hb4]
  · simp [compute_metrics, np_concatenate, recall_score, truePos, falseNeg,
      hb1, hb2, hb3, hb4]
  · have hded : ([0.9, 0.1] : List ℚ).dedup = [0.9, 0.1] := by
      rw [List.dedup_cons_of_not_mem, List.dedup_cons_of_not_mem, List.dedup_nil]
      · simp
      · simp
        norm_num
    have hsort : threshDesc [0.9, 0.1] = [0.9, 0.1] := by
      rw [threshDesc, hded, List.insertionSort, List.insertionSort,
        List.insertionSort, List.orderedInsert, List.orderedInsert]
      norm_num
    have h90 : ((0.9 : ℚ) ≤ 0.9) := le_refl _
    have h91 : ¬ ((0.9 : ℚ) ≤ 0.1) := by norm_num
    have h10 : ((0.1 : ℚ) ≤ 0.9) := by norm_num
    have h11 : ((0.1 : ℚ) ≤ 0.1) := le_refl _
    have hflatP : np_concatenate [[(0.9 : ℚ)], [0.1]] = [0.9, 0.1] := by
      simp [np_concatenate]
    have hflatT : np_concatenate [[(1 : ℚ)], [0]] = [1, 0] := by
      simp [np_concatenate]
    have hytrue : ([(1 : ℚ), 0]).map (fun x => decide (x > (0.5 : ℚ)))
        = [true, false] := by
      simp [hb3, hb4]
    have hroc : roc_curve [true, false] [0.9, 0.1]
        = ([0, 0, 1], [0, 1, 1], [0.9, 0.1]) := by
      simp only [roc_curve, hsort]
      simp [tpsAt, fpsAt, List.countP_cons, h90, h91, h10, h11]
    have hauc : auc [0, 0, 1] [0, 1, 1] = 1 := by
      norm_num [auc, trapezoid]
    simp only [compute_metrics, hflatP, hflatT, hytrue, hroc, hauc]

/-! ## Permutation invariance of `compute_metrics` (C3) -/

lemma zip_flatten_proj {α β γ : Type} (f : α → List β) (g : α → List γ)
    (bs : List α) (h : ∀ b ∈ bs, (f b).length = (g b).length) :
    (bs.map f).flatten.zip (bs.map g).flatten
      = (bs.map (fun b => (f b).zip (g b))).flatten := by
  induction bs with
  | nil => rfl
  | cons b rest ih =>
    simp only [List.map_cons, List.flatten_cons]
    rw [List.zip_append (h b (List.mem_cons_self b rest)),
      ih (fun x hx => h x (List.mem_cons_of_mem b hx))]

lemma threshDesc_perm {l l' : List ℚ} (h : l.Perm l') : threshDesc l = threshDesc l' :=
  List.eq_of_perm_of_sorted
    ((List.perm_insertionSort _ _).trans (h.dedup.trans (List.perm_insertionSort _ _).symm))
    (List.sorted_insertionSort _ _) (List.sorted_insertionSort _ _)

lemma threshAsc_perm {l l' : List ℚ} (h : l.Perm l') : threshAsc l = threshAsc l' :=
  List.eq_of_perm_of_sorted
    ((List.perm_insertionSort _ _).trans (h.dedup.trans (List.perm_insertionSort _ _).symm))
    (List.sorted_insertionSort _ _) (List.sorted_insertionSort _ _)

lemma countP_zip_map_binarized {A B A' B' : List ℚ} (t : ℚ) (q : Bool × Bool → Bool)
    (hzip : (A.zip B).Perm (A'.zip B')) :
    ((A.map fun x => decide (x > t)).zip (B.map fun x => decide (x > t))).countP q
      = ((A'.map fun x => decide (x > t)).zip (B'.map fun x => decide (x > t))).countP q := by
  rw [List.zip_map, List.zip_map, List.countP_map, List.countP_map]
  exact hzip.countP_eq _

lemma countP_zip_map_right_binarized {A B A' B' : List ℚ} (t : ℚ) (q : ℚ × Bool → Bool)
    (hzip : (A.zip B).Perm (A'.zip B')) :
    (A.zip (B.map fun x => decide (x > t))).countP q
      = (A'.zip (B'.map fun x => decide (x > t))).countP q := by
  rw [List.zip_map_right, List.zip_map_right, List.countP_map, List.countP_map]
  exact hzip.countP_eq _

lemma accuracy_score_binarized_perm {pf tf pf' tf' : List ℚ} (t : ℚ)
    (hzipT : (tf.zip pf).Perm (tf'.zip pf')) (ht : tf.Perm tf') :
    accuracy_score (tf.map fun x => decide (x > t)) (pf.map fun x => decide (x > t))
      = accuracy_score (tf'.map fun x => decide (x > t))
          (pf'.map fun x => decide (x > t)) := by
  unfold accuracy_score
  rw [countP_zip_map_binarized t _ hzipT, List.length_map, List.length_map, ht.length_eq]

lemma precision_score_binarized_perm {pf tf pf' tf' : List ℚ} (t : ℚ)
    (hzipT : (tf.zip pf).Perm (tf'.zip pf')) :
    precision_score (tf.map fun x => decide (x > t)) (pf.map fun x => decide (x > t))
      = precision_score (tf'.map fun x => decide (x > t))
          (pf'.map fun x => decide (x > t)) := by
  unfold precision_score truePos falsePos
  rw [countP_zip_map_binarized t _ hzipT, countP_zip_map_binarized t _ hzipT]

lemma recall_score_binarized_perm {pf tf pf' tf' : List ℚ} (t : ℚ)
    (hzipT : (tf.zip pf).Perm (tf'.zip pf')) :
    recall_score (tf.map fun x => decide (x > t)) (pf.map fun x => decide (x > t))
      = recall_score (tf'.map fun x => decide (x > t))
          (pf'.map fun x => decide (x > t)) := by
  unfold recall_score truePos falseNeg
  rw [countP_zip_map_binarized t _ hzipT, countP_zip_map_binarized t _ hzipT]

lemma roc_curve_perm {pf tf pf' tf' : List ℚ} (t : ℚ)
    (hzip : (pf.zip tf).Perm (pf'.zip tf')) (hp : pf.Perm pf') :
    roc_curve (tf.map fun x => decide (x > t)) pf
      = roc_curve (tf'.map fun x => decide (x > t)) pf' := by
  have hths : threshDesc pf = threshDesc pf' := threshDesc_perm hp
  have hcnt : ∀ q : ℚ × Bool → Bool,
      (pf.zip (tf.map fun x => decide (x > t))).countP q
        = (pf'.zip (tf'.map fun x => decide (x > t))).countP q :=
    fun q => countP_zip_map_right_binarized t q hzip
  simp only [roc_curve]
  rw [hths, hcnt (fun p => p.2), hcnt (fun p => !p.2)]
  simp only [Prod.mk.injEq]
  refine ⟨?_, ?_, trivial⟩
  · congr 1
    apply List.map_congr_left
    intro v hv
    rw [fpsAt, fpsAt, hcnt]
  · congr 1
    apply List.map_congr_left
    intro v hv
    rw [tpsAt, tpsAt, hcnt]

lemma precision_recall_curve_perm {pf tf pf' tf' : List ℚ} (t : ℚ)
    (hzip : (pf.zip tf).Perm (pf'.zip tf')) (hp : pf.Perm pf') :
    precision_recall_curve (tf.map fun x => decide (x > t)) pf
      = precision_recall_curve (tf'.map fun x => decide (x > t)) pf' := by
  have hths : threshAsc pf = threshAsc pf' := threshAsc_perm hp
  have hcnt : ∀ q : ℚ × Bool → Bool,
      (pf.zip (tf.map fun x => decide (x > t))).countP q
        = (pf'.zip (tf'.map fun x => decide (x > t))).countP q :=
    fun q => countP_zip_map_right_binarized t q hzip
  simp only [precision_recall_curve]
  rw [hths, hcnt (fun p => p.2)]
  simp only [Prod.mk.injEq]
  refine ⟨?_, ?_, trivial⟩
  · congr 1
    apply List.map_congr_left
    intro v hv
    rw [tpsAt, tpsAt, fpsAt, fpsAt, hcnt, hcnt]
  · congr 1
    apply List.map_congr_left
    intro v hv
    rw [tpsAt, tpsAt, hcnt]

/-- C3: `compute_metrics` is invariant under permuting the input batches:
for batch sequences given as (prediction batch, target batch) pairs with
matching lengths within each pair, any permutation of the batch list yields
an identical `Metrics` record. -/
theorem compute_metrics_perm_invariant
    (bs bs' : List (List ℚ × List ℚ)) (t : ℚ)
    (hlen : ∀ b ∈ bs, b.1.length = b.2.length)
    (hperm : bs.Perm bs') :
    compute_metrics (bs.map Prod.fst) (bs.map Prod.snd) t
      = compute_metrics (bs'.map Prod.fst) (bs'.map Prod.snd) t := by
  have hlen' : ∀ b ∈ bs', b.1.length = b.2.length :=
    fun b hb => hlen b (hperm.mem_iff.mpr hb)
  have hzip : ((bs.map Prod.fst).flatten.zip (bs.map Prod.snd).flatten).Perm
      ((bs'.map Prod.fst).flatten.zip (bs'.map Prod.snd).flatten) := by
    rw [zip_flatten_proj _ _ bs hlen, zip_flatten_proj _ _ bs' hlen']
    exact (hperm.map _).flatten
  have hzipT : ((bs.map Prod.snd).flatten.zip (bs.map Prod.fst).flatten).Perm
      ((bs'.map Prod.snd).flatten.zip (bs'.map Prod.fst).flatten) := by
    rw [zip_flatten_proj _ _ bs (fun b hb => (hlen b hb).symm),
      zip_flatten_proj _ _ bs' (fun b hb => (hlen' b hb).symm)]
    exact (hperm.map _).flatten
  have hp : ((bs.map Prod.fst).flatten).Perm ((bs'.map Prod.fst).flatten) :=
    (hperm.map _).flatten
  have ht : ((bs.map Prod.snd).flatten).Perm ((bs'.map Prod.snd).flatten) :=
    (hperm.map _).flatten
  simp only [compute_metrics, np_concatenate]
  rw [accuracy_score_binarized_perm t hzipT ht,
    precision_score_binarized_perm t hzipT,
    recall_score_binarized_perm t hzipT,
    roc_curve_perm t hzip hp,
    precision_recall_curve_perm t hzip hp]

/-- Witness for C3: swapping the two batches of the C8 example leaves the
whole `Metrics` record unchanged. -/
theorem compute_metrics_perm_invariant_witness :
    compute_metrics [[(0.9 : ℚ)], [0.1]] [[1], [0]] 0.5
      = compute_metrics [[(0.1 : ℚ)], [0.9]] [[0], [1]] 0.5 :=
  compute_metrics_perm_invariant
    [([0.9], [1]), ([0.1], [0])] [([0.1], [0]), ([0.9], [1])] 0.5
    (by intro b hb; fin_cases hb <;> rfl)
    (List.Perm.swap _ _ [])

end NbUtils
